import Mathlib

/-!
Shallow embedding of the document text-extraction subsystem of
`src/src-tauri/src/commands/vocabulary_extract.rs`.

The Rust functions `extract_document_text`, `extract_docx_text` and
`extract_pptx_text` are translated into executable Lean definitions:

* a PPTX archive is a list of zip members, each carrying its member name and
  the outcome of reading its content as a stream of XML parse events (the
  quick_xml reader is modelled by the event list it yields; reading the raw
  bytes as UTF-8 may fail, which is the `Except.error` case of the content);
* a DOCX document is the tree of document children / paragraph children /
  run children exposed by the docx_rs crate;
* the facade takes the path as a string and the outcomes of the per-format
  extractors as parameters (it only dispatches on the lowercased extension).
-/

namespace VocabExtract

/-! ### Small string helpers mirroring the Rust `str` operations used -/

/-- One step of Rust `char::to_lowercase` restricted to ASCII letters,
which is all the extension matching needs. -/
def strToLower (s : String) : String :=
  String.mk (s.data.map Char.toLower)

/-- Split a character list at every occurrence of the separator `c`
(the same splitting `Path` components use for `/`). -/
def splitOnChar (c : Char) : List Char → List (List Char)
  | [] => [[]]
  | x :: rest =>
    let r := splitOnChar c rest
    if x = c then [] :: r
    else
      match r with
      | [] => [[x]]
      | h :: t => (x :: h) :: t

/-- Rust `str::trim_start_matches`: repeatedly strip the pattern from the
front while it matches.  Written with explicit fuel (the string length bounds
the number of strips, since the pattern is only stripped when non-empty). -/
def trimStartFuel : Nat → List Char → List Char → List Char
  | 0, _, s => s
  | Nat.succ fuel, pat, s =>
    if pat ≠ [] ∧ pat.isPrefixOf s then trimStartFuel fuel pat (s.drop pat.length)
    else s

/-- Rust `str::trim_start_matches` on character lists. -/
def trimStartMatches (pat s : List Char) : List Char :=
  trimStartFuel s.length pat s

/-- Rust `str::trim_end_matches`: repeatedly strip the pattern from the end
while it matches; equivalently, strip the reversed pattern from the front of
the reversed list. -/
def trimEndMatches (pat s : List Char) : List Char :=
  (trimStartFuel s.length pat.reverse s.reverse).reverse

/-- Accumulator loop of Rust `u32::from_str` over the digit characters:
fails on the first non-digit. -/
def parseDigitsAux : List Char → Nat → Option Nat
  | [], acc => some acc
  | c :: rest, acc =>
    if c.isDigit then parseDigitsAux rest (acc * 10 + (c.toNat - 48))
    else none

/-- Rust `str::parse::<u32>`: an optional leading `+`, then at least one
ASCII digit, and the value must fit in 32 bits ('-' is rejected for an
unsigned target type). -/
def parseU32 (s : List Char) : Option Nat :=
  let body := match s with
    | '+' :: rest => rest
    | other => other
  match body with
  | [] => none
  | _ =>
    match parseDigitsAux body 0 with
    | some v => if v < 2 ^ 32 then some v else none
    | none => none

/-- Rust `str::trim` (both ends, whitespace). -/
def trimChars (l : List Char) : List Char :=
  ((l.dropWhile Char.isWhitespace).reverse.dropWhile Char.isWhitespace).reverse

/-- Concatenation of a list of strings (in order, no separator). -/
def concatStrs : List String → String
  | [] => ""
  | s :: rest => s ++ concatStrs rest

/-! ### PPTX extractor (`extract_pptx_text`) -/

/-- One event yielded by the quick_xml pull reader over a slide's XML:
`text` is `Ok(Event::Text(e))` carrying the result of `e.unescape()`
(`none` models an unescape error, which `unwrap_or_default()` turns into the
empty string); `err` is `Err(_)`; `other` is any other `Ok` event, which the
loop ignores.  End of the list models `Ok(Event::Eof)`. -/
inductive XmlEvent where
  | text (unescaped : Option String)
  | err
  | other
  deriving DecidableEq, Repr

/-- The slide-scanning loop of `extract_pptx_text`: on a text event append
the unescaped text and a single space; on a reader error stop (keeping what
was accumulated); ignore every other event. -/
def processEvents : List XmlEvent → String → String
  | [], acc => acc
  | XmlEvent.text o :: rest, acc => processEvents rest (acc ++ o.getD "" ++ " ")
  | XmlEvent.err :: _, acc => acc
  | XmlEvent.other :: rest, acc => processEvents rest acc

deriving instance DecidableEq for Except

/-- One member of the PPTX zip archive: its name, and the outcome of reading
its content as UTF-8 and scanning it (`Except.error e` models
`read_to_string` failing with error display `e`). -/
structure ZipMember where
  name : String
  content : Except String (List XmlEvent)
  deriving DecidableEq, Repr

/-- The characters of the slide-member name pattern start, `ppt/slides/slide`. -/
def slideStart : List Char := "ppt/slides/slide".data

/-- The characters of the slide-member name pattern end, `.xml`. -/
def xmlEnd : List Char := ".xml".data

/-- The filter of `extract_pptx_text`:
`name.starts_with("ppt/slides/slide") && name.ends_with(".xml")`. -/
def isSlideName (s : String) : Bool :=
  slideStart.isPrefixOf s.data && xmlEnd.isSuffixOf s.data

/-- The `extract_num` closure of `extract_pptx_text`:
`s.trim_start_matches("ppt/slides/slide").trim_end_matches(".xml").parse::<u32>().unwrap_or(0)`. -/
def extract_num (s : String) : Nat :=
  (parseU32 (trimEndMatches xmlEnd (trimStartMatches slideStart s.data))).getD 0

/-- The collected `slide_files` vector, before sorting: the names of the
archive members matching the slide pattern, in archive enumeration order. -/
def slide_files (archive : List ZipMember) : List String :=
  (archive.filter fun m => isSlideName m.name).map (fun m => m.name)

instance : DecidableRel (fun a b : String => extract_num a ≤ extract_num b) :=
  fun a b => Nat.decLe (extract_num a) (extract_num b)

instance : IsTotal String (fun a b : String => extract_num a ≤ extract_num b) :=
  ⟨fun _ _ => Nat.le_total _ _⟩

instance : IsTrans String (fun a b : String => extract_num a ≤ extract_num b) :=
  ⟨fun _ _ _ => Nat.le_trans⟩

/-- `slide_files` after `sort_by(|a, b| extract_num(a).cmp(&extract_num(b)))`.
Rust's `sort_by` is a stable sort; insertion sort is the stable sort, so it
is the faithful functional model of the call. -/
def sorted_slide_files (archive : List ZipMember) : List String :=
  List.insertionSort (fun a b => extract_num a ≤ extract_num b) (slide_files archive)

/-- `archive.by_name(name)`: the first member with that name, if any. -/
def byName (archive : List ZipMember) (n : String) : Option ZipMember :=
  archive.find? fun m => m.name = n

/-- One iteration of the slide loop of `extract_pptx_text`: look the slide up
by name, fail the whole extraction if it cannot be fetched or its content
cannot be read; otherwise scan its events, and append the marker line, the
slide text and a newline exactly when the slide text is non-empty after
trimming. -/
def slideStep (archive : List ZipMember) (text : String) (slide_name : String) :
    Except String String :=
  match byName archive slide_name with
  | none => Except.error ("Failed to read slide " ++ slide_name ++ ": file not found")
  | some m =>
    match m.content with
    | Except.error e =>
        Except.error ("Failed to read content of " ++ slide_name ++ ": " ++ e)
    | Except.ok events =>
        let slide_text := processEvents events ""
        if trimChars slide_text.data = [] then Except.ok text
        else Except.ok (text ++ ("--- SLIDE " ++ slide_name ++ " ---\n") ++ slide_text ++ "\n")

/-- `extract_pptx_text`, given the successfully opened archive: process the
sorted slide members in order (propagating fatal per-slide read errors), and
turn an empty final buffer into the no-text error. -/
def extract_pptx_text (archive : List ZipMember) : Except String String :=
  match (sorted_slide_files archive).foldlM (slideStep archive) "" with
  | Except.error e => Except.error e
  | Except.ok text =>
    if text = "" then Except.error "No text found in presentation slides."
    else Except.ok text

/-! ### Derived descriptions of the PPTX output, used to state the claims -/

/-- The text scanned from the slide member a name resolves to (empty if the
name resolves to nothing readable; on the names the extractor actually
processes, resolution always succeeds). -/
def slideTextOf (archive : List ZipMember) (n : String) : String :=
  match byName archive n with
  | some m =>
    match m.content with
    | Except.ok events => processEvents events ""
    | Except.error _ => ""
  | none => ""

/-- Whether a slide name contributes a marker block to the output. -/
def slideKept (archive : List ZipMember) (n : String) : Bool :=
  !(trimChars (slideTextOf archive n).data).isEmpty

/-- The marker block one kept slide contributes to the output. -/
def markerBlock (archive : List ZipMember) (n : String) : String :=
  ("--- SLIDE " ++ n ++ " ---\n") ++ slideTextOf archive n ++ "\n"

/-- What one slide contributes to the output buffer: its marker block when
kept, nothing otherwise. -/
def slideBlock (archive : List ZipMember) (n : String) : String :=
  if trimChars (slideTextOf archive n).data = [] then "" else markerBlock archive n

/-- The names whose marker lines appear in the output, in emission order. -/
def markerNames (archive : List ZipMember) : List String :=
  (sorted_slide_files archive).filter (slideKept archive)

/-- `contentOk` holds of a member whose bytes could be read as UTF-8. -/
def contentOk : Except String (List XmlEvent) → Bool
  | Except.ok _ => true
  | Except.error _ => false

/-- Every slide member of the archive is readable (so the per-slide fatal
error paths are not taken and every slide is processed). -/
def archiveOk (archive : List ZipMember) : Prop :=
  ∀ m ∈ archive, isSlideName m.name = true → contentOk m.content = true

instance (archive : List ZipMember) : Decidable (archiveOk archive) := by
  unfold archiveOk; infer_instance

/-- Whether a member's scanned text survives trimming (false as well when the
member is unreadable). -/
def slideNonempty (m : ZipMember) : Bool :=
  match m.content with
  | Except.ok events => !(trimChars (processEvents events "").data).isEmpty
  | Except.error _ => false

/-- Every matched slide member has a parseable numeric ordinal between the
pattern start and the pattern end of its name. -/
def ordinalsParse (archive : List ZipMember) : Prop :=
  ∀ m ∈ archive, isSlideName m.name = true →
    (parseU32 (trimEndMatches xmlEnd (trimStartMatches slideStart m.name.data))).isSome = true

instance (archive : List ZipMember) : Decidable (ordinalsParse archive) := by
  unfold ordinalsParse; infer_instance

/-- Every matched slide member scans to text that survives trimming. -/
def allNonempty (archive : List ZipMember) : Prop :=
  ∀ m ∈ archive, isSlideName m.name = true → slideNonempty m = true

instance (archive : List ZipMember) : Decidable (allNonempty archive) := by
  unfold allNonempty; infer_instance

/-- Every matched slide member scans to text that vanishes under trimming. -/
def allEmpty (archive : List ZipMember) : Prop :=
  ∀ m ∈ archive, isSlideName m.name = true → slideNonempty m = false

instance (archive : List ZipMember) : Decidable (allEmpty archive) := by
  unfold allEmpty; infer_instance

/-! ### DOCX extractor (`extract_docx_text`)

The docx_rs document tree, restricted to the constructors the traversal
distinguishes.  The variants the source's `if let` patterns skip are modelled
by representative constructors that still carry the text they may hold
(`deleteText` for run children such as `DeleteText`, `hyperlink` for
paragraph children such as `Hyperlink`/`Insert` that contain runs, `table`
for document children such as `Table` that contain paragraphs), so silent
omission of their text is expressible. -/

inductive RunChild where
  | text (t : String)
  | deleteText (t : String)
  | other
  deriving DecidableEq, Repr

inductive ParagraphChild where
  | run (children : List RunChild)
  | hyperlink (children : List RunChild)
  | other
  deriving DecidableEq, Repr

inductive DocumentChild where
  | paragraph (children : List ParagraphChild)
  | table (content : List (List ParagraphChild))
  | other
  deriving DecidableEq, Repr

/-- Innermost loop of `extract_docx_text`: `if let RunChild::Text(t) = child`
appends the text-node content, everything else is skipped. -/
def runStep (text : String) (rc : RunChild) : String :=
  match rc with
  | RunChild.text t => text ++ t
  | _ => text

/-- Middle loop of `extract_docx_text`: `if let ParagraphChild::Run(run)`
walks the run's children, everything else is skipped. -/
def parStep (text : String) (pc : ParagraphChild) : String :=
  match pc with
  | ParagraphChild.run rcs => rcs.foldl runStep text
  | _ => text

/-- Outer loop of `extract_docx_text`: `if let DocumentChild::Paragraph(p)`
walks the paragraph's children and then pushes a newline, everything else is
skipped. -/
def docStep (text : String) (c : DocumentChild) : String :=
  match c with
  | DocumentChild.paragraph pcs => pcs.foldl parStep text ++ "\n"
  | _ => text

/-- `extract_docx_text`, given the parsed document children. -/
def extract_docx_text (children : List DocumentChild) : String :=
  children.foldl docStep ""

/-- Spec-side description (for the refinement claim): the text of one run is
the concatenation of its text-node contents with no separator. -/
def runTextSpec (rcs : List RunChild) : String :=
  concatStrs (rcs.map fun rc =>
    match rc with
    | RunChild.text t => t
    | _ => "")

/-- Spec-side description: the text of one paragraph is the concatenation of
its runs' texts, in order, with no separator. -/
def paragraphTextSpec (pcs : List ParagraphChild) : String :=
  concatStrs (pcs.map fun pc =>
    match pc with
    | ParagraphChild.run rcs => runTextSpec rcs
    | _ => "")

/-- Spec-side description of the DOCX output: one line per paragraph in
document order — the paragraph's text followed by a single newline, blank
paragraphs included. -/
def docxSpecOutput (children : List DocumentChild) : String :=
  concatStrs (children.map fun c =>
    match c with
    | DocumentChild.paragraph pcs => paragraphTextSpec pcs ++ "\n"
    | _ => "")

/-! ### Facade (`extract_document_text`) -/

/-- Rust `Path::file_name` for Unix-style paths: the last component, with
empty and `.` components skipped, and no file name when the path ends in
`..` or has no components. -/
def rustFileName (p : String) : Option (List Char) :=
  let parts := (splitOnChar '/' p.data).filter fun part =>
    decide (part ≠ []) && decide (part ≠ ['.'])
  match parts.getLast? with
  | none => none
  | some f => if f = ['.', '.'] then none else some f

/-- Rust `Path::extension` on the file name: the portion after the last dot,
provided a dot exists at a position other than the start. -/
def extOfFileName (f : List Char) : Option String :=
  let r := f.reverse
  let e := r.takeWhile fun c => c ≠ '.'
  if e.length = r.length then none
  else if e.length + 1 = r.length then none
  else some (String.mk e.reverse)

/-- Rust `path.extension().and_then(|e| e.to_str())` of the input path
(`to_str` never fails on our unicode strings). -/
def rustExtension (p : String) : Option String :=
  (rustFileName p).bind extOfFileName

/-- `extract_document_text`: derive the lowercased extension (failing with
the fixed message when there is none) and dispatch.  The outcomes of the four
format extractors are passed as parameters: `read_to_string` is the outcome
of reading the file as UTF-8 (used by the txt/md arm, whose error is wrapped
exactly as in the source), and `docxResult`/`pdfResult`/`pptxResult` are the
outcomes of the corresponding extractor calls, returned as-is by their arms. -/
def extract_document_text (path : String)
    (read_to_string : Except String String)
    (docxResult pdfResult pptxResult : Except String String) :
    Except String String :=
  match rustExtension path with
  | none => Except.error "Could not determine file type"
  | some e =>
    let extension := strToLower e
    if extension = "txt" ∨ extension = "md" then
      match read_to_string with
      | Except.ok s => Except.ok s
      | Except.error err => Except.error ("Failed to read file: " ++ err)
    else if extension = "docx" then docxResult
    else if extension = "pdf" then pdfResult
    else if extension = "pptx" then pptxResult
    else if extension = "ppt" then
      Except.error "Legacy .ppt files are not supported directly. Please save the file as a .pptx or .pdf and try again."
    else Except.error ("Unsupported file type: " ++ extension)

/-! ### Concrete inputs used by witnesses and counterexamples -/

/-- Archive whose matched slides appear physically as slide10, slide2,
slide1, each with non-empty text, plus a layout member and a non-slide
member that the filter must discard. -/
def wArchOrder : List ZipMember :=
  [⟨"ppt/slides/slide10.xml", Except.ok [XmlEvent.text (some "Ten")]⟩,
   ⟨"ppt/slides/slide2.xml", Except.ok [XmlEvent.text (some "Two")]⟩,
   ⟨"ppt/slides/slide1.xml", Except.ok [XmlEvent.text (some "One")]⟩,
   ⟨"ppt/slideLayouts/slideLayout1.xml", Except.ok [XmlEvent.text (some "Layout")]⟩,
   ⟨"docProps/app.xml", Except.ok [XmlEvent.text (some "Props")]⟩]

/-- Archive whose only slide yields no text at all. -/
def wArchEmpty : List ZipMember :=
  [⟨"ppt/slides/slide1.xml", Except.ok [XmlEvent.other]⟩,
   ⟨"ppt/slides/slide2.xml", Except.ok [XmlEvent.text (some " ")]⟩]

/-- Archive with one ordinary slide with text. -/
def wArchHello : List ZipMember :=
  [⟨"ppt/slides/slide1.xml", Except.ok [XmlEvent.text (some "Hello")]⟩]

/-- Archive containing a slide member whose name has no parseable ordinal. -/
def wArchMalformed : List ZipMember :=
  [⟨"ppt/slides/slideFOO.xml", Except.ok [XmlEvent.text (some "Odd")]⟩,
   ⟨"ppt/slides/slide3.xml", Except.ok [XmlEvent.text (some "Three")]⟩]

/-- Archive with one slide with text and one whose text is whitespace only
(a text node that unescapes to a space still yields a whitespace buffer). -/
def wArchMixed : List ZipMember :=
  [⟨"ppt/slides/slide1.xml", Except.ok [XmlEvent.text (some "Hello")]⟩,
   ⟨"ppt/slides/slide2.xml", Except.ok [XmlEvent.text (some " ")]⟩]

/-- Archive with two malformed slide names (both ordinal 0) and one numbered
slide, all with text. -/
def wArchEqual : List ZipMember :=
  [⟨"ppt/slides/slideB.xml", Except.ok [XmlEvent.text (some "Bee")]⟩,
   ⟨"ppt/slides/slideA.xml", Except.ok [XmlEvent.text (some "Ay")]⟩,
   ⟨"ppt/slides/slide1.xml", Except.ok [XmlEvent.text (some "One")]⟩]

/-- The DOCX document with paragraphs Hello, empty, World. -/
def docxExample : List DocumentChild :=
  [DocumentChild.paragraph [ParagraphChild.run [RunChild.text "Hello"]],
   DocumentChild.paragraph [],
   DocumentChild.paragraph [ParagraphChild.run [RunChild.text "World"]]]

/-! ### Helper lemmas about strings and concatenation -/

theorem str_append_eq_empty {s t : String} (h : s ++ t = "") : s = "" ∧ t = "" := by
  have hd : s.data ++ t.data = ([] : List Char) := by
    have := congrArg String.data h
    simpa using this
  rcases List.append_eq_nil.mp hd with ⟨hs, ht⟩
  exact ⟨String.ext hs, String.ext ht⟩

theorem markerBlock_ne_empty (archive : List ZipMember) (n : String) :
    markerBlock archive n ≠ "" := by
  intro h
  have h1 := (str_append_eq_empty h).1
  have h2 := (str_append_eq_empty h1).1
  have h3 := (str_append_eq_empty h2).1
  have h4 := (str_append_eq_empty h3).1
  exact absurd h4 (by decide)

theorem concatStrs_eq_empty {l : List String} (h : ∀ s ∈ l, s ≠ "") :
    concatStrs l = "" ↔ l = [] := by
  cases l with
  | nil => simp [concatStrs]
  | cons s rest =>
    simp only [concatStrs]
    constructor
    · intro hc
      exact absurd (str_append_eq_empty hc).1 (h s (List.mem_cons_self s rest))
    · intro hc
      exact absurd hc (by simp)

/-! ### Helper lemmas about the PPTX extractor -/

theorem processEvents_err (pre post : List XmlEvent) (acc : String) :
    processEvents (pre ++ XmlEvent.err :: post) acc = processEvents pre acc := by
  induction pre generalizing acc with
  | nil => rfl
  | cons e rest ih =>
    cases e with
    | text o => simpa [processEvents] using ih _
    | err => rfl
    | other => simpa [processEvents] using ih _

theorem mem_slide_files {archive : List ZipMember} {n : String}
    (hn : n ∈ slide_files archive) :
    (∃ m ∈ archive, m.name = n) ∧ isSlideName n = true := by
  rcases List.mem_map.mp hn with ⟨m, hm, hname⟩
  rcases List.mem_filter.mp hm with ⟨hmem, hpred⟩
  exact ⟨⟨m, hmem, hname⟩, hname ▸ hpred⟩

theorem byName_resolves {archive : List ZipMember} {n : String}
    (h : archiveOk archive) (hn : n ∈ slide_files archive) :
    ∃ m events, byName archive n = some m ∧ m.name = n ∧
      m.content = Except.ok events := by
  rcases mem_slide_files hn with ⟨⟨m₀, hm₀, hname₀⟩, hslide⟩
  have hsome : (archive.find? fun m => m.name = n).isSome := by
    rw [List.find?_isSome]
    exact ⟨m₀, hm₀, by simp [hname₀]⟩
  rcases Option.isSome_iff_exists.mp hsome with ⟨m, hm⟩
  have hmemm : m ∈ archive := List.mem_of_find?_eq_some hm
  have hnamem : m.name = n := by
    have := List.find?_some hm
    exact of_decide_eq_true this
  have hcontent : contentOk m.content = true :=
    h m hmemm (by rw [hnamem]; exact hslide)
  cases hc : m.content with
  | ok events => exact ⟨m, events, hm, hnamem, hc⟩
  | error e => rw [hc] at hcontent; exact absurd hcontent (by simp [contentOk])

theorem slideTextOf_eq {archive : List ZipMember} {n : String} {m : ZipMember}
    {events : List XmlEvent} (hb : byName archive n = some m)
    (hc : m.content = Except.ok events) :
    slideTextOf archive n = processEvents events "" := by
  simp [slideTextOf, hb, hc]

theorem slideStep_ok {archive : List ZipMember} {n : String}
    (h : archiveOk archive) (hn : n ∈ slide_files archive) (text : String) :
    slideStep archive text n = Except.ok (text ++ slideBlock archive n) := by
  rcases byName_resolves h hn with ⟨m, events, hb, _, hc⟩
  have hst := slideTextOf_eq hb hc
  simp only [slideStep, hb, hc, slideBlock, markerBlock, hst]
  by_cases hemp : trimChars (processEvents events "").data = []
  · simp [hemp]
  · simp [hemp, String.append_assoc]

theorem foldlM_slideStep {archive : List ZipMember} {names : List String}
    (h : ∀ n ∈ names, ∀ text, slideStep archive text n = Except.ok (text ++ slideBlock archive n)) :
    ∀ init, names.foldlM (slideStep archive) init =
      Except.ok (init ++ concatStrs (names.map (slideBlock archive))) := by
  induction names with
  | nil =>
    intro init
    simp only [List.foldlM_nil, List.map_nil, concatStrs, String.append_empty]
    rfl
  | cons n rest ih =>
    intro init
    have hstep := h n (List.mem_cons_self n rest) init
    have hrest : ∀ x ∈ rest, ∀ text,
        slideStep archive text x = Except.ok (text ++ slideBlock archive x) :=
      fun x hx => h x (List.mem_cons_of_mem n hx)
    simp only [List.foldlM_cons, hstep]
    calc (Except.ok (init ++ slideBlock archive n) >>= fun b =>
            rest.foldlM (slideStep archive) b)
        = rest.foldlM (slideStep archive) (init ++ slideBlock archive n) := rfl
      _ = Except.ok ((init ++ slideBlock archive n) ++
            concatStrs (rest.map (slideBlock archive))) := ih hrest _
      _ = Except.ok (init ++ concatStrs ((n :: rest).map (slideBlock archive))) := by
            simp [concatStrs, String.append_assoc]

theorem mem_sorted_slide_files {archive : List ZipMember} {n : String} :
    n ∈ sorted_slide_files archive ↔ n ∈ slide_files archive := by
  unfold sorted_slide_files
  exact List.mem_insertionSort _

theorem extract_pptx_blocks {archive : List ZipMember} (h : archiveOk archive) :
    extract_pptx_text archive =
      if concatStrs ((sorted_slide_files archive).map (slideBlock archive)) = ""
      then Except.error "No text found in presentation slides."
      else Except.ok (concatStrs ((sorted_slide_files archive).map (slideBlock archive))) := by
  have hall : ∀ n ∈ sorted_slide_files archive, ∀ text,
      slideStep archive text n = Except.ok (text ++ slideBlock archive n) :=
    fun n hn => slideStep_ok h (mem_sorted_slide_files.mp hn)
  unfold extract_pptx_text
  rw [foldlM_slideStep hall ""]
  simp

theorem blocks_eq_markers (archive : List ZipMember) (names : List String) :
    concatStrs (names.map (slideBlock archive)) =
      concatStrs ((names.filter (slideKept archive)).map (markerBlock archive)) := by
  induction names with
  | nil => rfl
  | cons n rest ih =>
    by_cases hk : trimChars (slideTextOf archive n).data = []
    · have hkept : slideKept archive n = false := by
        simp [slideKept, hk]
      simp [concatStrs, List.filter_cons, hkept, slideBlock, hk, ih]
    · have hkept : slideKept archive n = true := by
        simp [slideKept, List.isEmpty_iff, hk]
      simp [concatStrs, List.filter_cons, hkept, slideBlock, hk, ih]

theorem markers_concat_eq_empty (archive : List ZipMember) (names : List String) :
    concatStrs (names.map (markerBlock archive)) = "" ↔ names = [] := by
  constructor
  · intro hc
    by_contra hne
    cases names with
    | nil => exact hne rfl
    | cons n rest =>
      simp only [List.map_cons, concatStrs] at hc
      exact markerBlock_ne_empty archive n (str_append_eq_empty hc).1
  · intro hc; subst hc; rfl

theorem extract_pptx_markers {archive : List ZipMember} (h : archiveOk archive) :
    extract_pptx_text archive =
      if markerNames archive = [] then Except.error "No text found in presentation slides."
      else Except.ok (concatStrs ((markerNames archive).map (markerBlock archive))) := by
  rw [extract_pptx_blocks h, blocks_eq_markers archive (sorted_slide_files archive)]
  rw [show (sorted_slide_files archive).filter (slideKept archive) = markerNames archive from rfl]
  by_cases hm : markerNames archive = []
  · simp [hm, concatStrs]
  · have hne : concatStrs ((markerNames archive).map (markerBlock archive)) ≠ "" := by
      intro hc
      exact hm ((markers_concat_eq_empty archive _).mp hc)
    rw [if_neg hne, if_neg hm]

theorem sorted_slide_files_pairwise (archive : List ZipMember) :
    (sorted_slide_files archive).Pairwise (fun a b => extract_num a ≤ extract_num b) :=
  List.sorted_insertionSort (fun a b : String => extract_num a ≤ extract_num b)
    (slide_files archive)

theorem sorted_slide_files_perm (archive : List ZipMember) :
    (sorted_slide_files archive).Perm (slide_files archive) :=
  List.perm_insertionSort (fun a b : String => extract_num a ≤ extract_num b)
    (slide_files archive)

theorem filter_orderedInsert_of_key {p : String → Bool} {k : Nat}
    (hp : ∀ x, p x = true → extract_num x = k) (a : String) (l : List String) :
    (List.orderedInsert (fun a b => extract_num a ≤ extract_num b) a l).filter p =
      if p a then a :: l.filter p else l.filter p := by
  induction l with
  | nil => simp [List.orderedInsert, List.filter_cons]
  | cons b t ih =>
    by_cases hle : extract_num a ≤ extract_num b
    · simp [List.orderedInsert, if_pos hle, List.filter_cons]
    · simp only [List.orderedInsert, if_neg hle, List.filter_cons, ih]
      by_cases hpa : p a
      · by_cases hpb : p b
        · exact absurd (by rw [hp a hpa, hp b hpb]) hle
        · simp [hpa, hpb]
      · by_cases hpb : p b <;> simp [hpa, hpb]

theorem filter_insertionSort_of_key {p : String → Bool} {k : Nat}
    (hp : ∀ x, p x = true → extract_num x = k) (l : List String) :
    (List.insertionSort (fun a b => extract_num a ≤ extract_num b) l).filter p =
      l.filter p := by
  induction l with
  | nil => rfl
  | cons a t ih =>
    simp [List.insertionSort, filter_orderedInsert_of_key hp, ih, List.filter_cons]

theorem slideKept_of_allNonempty {archive : List ZipMember}
    (hok : archiveOk archive) (hne : allNonempty archive) {n : String}
    (hn : n ∈ slide_files archive) : slideKept archive n = true := by
  rcases byName_resolves hok hn with ⟨m, events, hb, hname, hc⟩
  have hmem : m ∈ archive := by
    have := List.mem_of_find?_eq_some hb
    exact this
  have hm := hne m hmem (by rw [hname]; exact (mem_slide_files hn).2)
  rw [slideNonempty, hc] at hm
  rw [slideKept, slideTextOf_eq hb hc]
  exact hm

theorem slideKept_of_allEmpty {archive : List ZipMember}
    (hok : archiveOk archive) (hemp : allEmpty archive) {n : String}
    (hn : n ∈ slide_files archive) : slideKept archive n = false := by
  rcases byName_resolves hok hn with ⟨m, events, hb, hname, hc⟩
  have hmem : m ∈ archive := List.mem_of_find?_eq_some hb
  have hm := hemp m hmem (by rw [hname]; exact (mem_slide_files hn).2)
  rw [slideNonempty, hc] at hm
  rw [slideKept, slideTextOf_eq hb hc]
  exact hm

/-! ### Claim theorems: PPTX extractor -/

/-- C1: for every PPTX archive whose matching slide members all have
numerically parseable ordinals and non-empty text, the slide marker lines of
the output appear in ascending numeric ordinal order: the emitted sequence
of marker names is exactly the ordinal-sorted member list — pairwise
ascending in `extract_num` and a permutation of the physically enumerated
matched members — and (when there is at least one matched member) the output
is the concatenation of the marker blocks in that order. -/
theorem claim_C1_slide_marker_order (archive : List ZipMember)
    (hok : archiveOk archive) (_hparse : ordinalsParse archive)
    (hne : allNonempty archive) :
    (sorted_slide_files archive).Pairwise (fun a b => extract_num a ≤ extract_num b)
    ∧ (sorted_slide_files archive).Perm (slide_files archive)
    ∧ markerNames archive = sorted_slide_files archive
    ∧ (slide_files archive ≠ [] →
        extract_pptx_text archive =
          Except.ok (concatStrs ((sorted_slide_files archive).map (markerBlock archive)))) := by
  have hmk : markerNames archive = sorted_slide_files archive := by
    rw [markerNames, List.filter_eq_self]
    exact fun n hn => slideKept_of_allNonempty hok hne (mem_sorted_slide_files.mp hn)
  refine ⟨sorted_slide_files_pairwise archive, sorted_slide_files_perm archive, hmk, ?_⟩
  intro hsf
  have hsorted_ne : sorted_slide_files archive ≠ [] := by
    intro h0
    apply hsf
    have hp := sorted_slide_files_perm archive
    rw [h0] at hp
    exact hp.symm.eq_nil
  rw [extract_pptx_markers hok, hmk, if_neg hsorted_ne]

/-- Witness for C1 at the spec's own example: the archive physically ordered
slide10, slide2, slide1 (plus a layout member and a non-slide member). -/
theorem claim_C1_slide_marker_order_witness :
    archiveOk wArchOrder ∧ ordinalsParse wArchOrder ∧ allNonempty wArchOrder
    ∧ (sorted_slide_files wArchOrder).Pairwise (fun a b => extract_num a ≤ extract_num b)
    ∧ markerNames wArchOrder = sorted_slide_files wArchOrder
    ∧ extract_pptx_text wArchOrder =
        Except.ok (concatStrs ((sorted_slide_files wArchOrder).map (markerBlock wArchOrder))) :=
  ⟨by decide, by decide, by decide,
   (claim_C1_slide_marker_order wArchOrder (by decide) (by decide) (by decide)).1,
   (claim_C1_slide_marker_order wArchOrder (by decide) (by decide) (by decide)).2.2.1,
   (claim_C1_slide_marker_order wArchOrder (by decide) (by decide) (by decide)).2.2.2
     (by decide)⟩

/-- C2: when every processed slide yields empty text the extraction fails
with the no-text error, and an empty-string success is impossible for any
archive whatsoever. -/
theorem claim_C2_no_text_found :
    (∀ archive : List ZipMember, archiveOk archive → allEmpty archive →
      extract_pptx_text archive = Except.error "No text found in presentation slides.")
    ∧ ∀ archive : List ZipMember, extract_pptx_text archive ≠ Except.ok "" := by
  constructor
  · intro archive hok hemp
    have hmk : markerNames archive = [] := by
      rw [markerNames, List.filter_eq_nil_iff]
      intro n hn hkept
      rw [slideKept_of_allEmpty hok hemp (mem_sorted_slide_files.mp hn)] at hkept
      exact absurd hkept (by simp)
    rw [extract_pptx_markers hok, if_pos hmk]
  · intro archive h
    rw [extract_pptx_text] at h
    cases hf : (sorted_slide_files archive).foldlM (slideStep archive) "" with
    | error e => rw [hf] at h; exact absurd h (by simp)
    | ok t =>
      rw [hf] at h
      dsimp only at h
      by_cases ht : t = ""
      · rw [if_pos ht] at h; exact absurd h (by simp)
      · rw [if_neg ht] at h
        exact ht (Except.ok.inj h)

/-- Witness for C2: an archive whose two slides yield no text errors with
the no-text message, and an archive with text cannot return an empty ok. -/
theorem claim_C2_no_text_found_witness :
    (archiveOk wArchEmpty ∧ allEmpty wArchEmpty ∧
      extract_pptx_text wArchEmpty = Except.error "No text found in presentation slides.")
    ∧ extract_pptx_text wArchHello ≠ Except.ok "" :=
  ⟨⟨by decide, by decide, claim_C2_no_text_found.1 wArchEmpty (by decide) (by decide)⟩,
   claim_C2_no_text_found.2 wArchHello⟩

/-- C5: under readable contents, the output is exactly the concatenation of
one marker block — the marker line `--- SLIDE <name> ---`, the slide text
and a newline — per slide whose trimmed text is non-empty (in sorted order),
and a slide whose trimmed text is empty contributes no marker at all. -/
theorem claim_C5_marker_emission (archive : List ZipMember) (hok : archiveOk archive) :
    extract_pptx_text archive =
      (if markerNames archive = []
       then Except.error "No text found in presentation slides."
       else Except.ok (concatStrs ((markerNames archive).map
              (fun n => ("--- SLIDE " ++ n ++ " ---\n") ++ slideTextOf archive n ++ "\n"))))
    ∧ markerNames archive = (sorted_slide_files archive).filter (slideKept archive)
    ∧ ∀ n ∈ sorted_slide_files archive,
        trimChars (slideTextOf archive n).data = [] → n ∉ markerNames archive := by
  refine ⟨extract_pptx_markers hok, rfl, ?_⟩
  intro n _ hempty hmem
  have := (List.mem_filter.mp hmem).2
  rw [slideKept, hempty] at this
  exact absurd this (by simp)

/-- Witness for C5: slide1 has text, slide2 is whitespace-only; the output
has a marker block for slide1 only. -/
theorem claim_C5_marker_emission_witness :
    archiveOk wArchMixed
    ∧ extract_pptx_text wArchMixed =
        (if markerNames wArchMixed = []
         then Except.error "No text found in presentation slides."
         else Except.ok (concatStrs ((markerNames wArchMixed).map
                (fun n => ("--- SLIDE " ++ n ++ " ---\n") ++ slideTextOf wArchMixed n ++ "\n"))))
    ∧ markerNames wArchMixed = ["ppt/slides/slide1.xml"] :=
  ⟨by decide, (claim_C5_marker_emission wArchMixed (by decide)).1, by decide⟩

/-- C6: a matched member name whose trimmed middle does not parse as a `u32`
gets ordinal 0 from `extract_num`, and (with readable contents) the
extraction never fails because of such a name: it either succeeds or reports
the no-text error. -/
theorem claim_C6_ordinal_fallback (archive : List ZipMember) (s : String) :
    (parseU32 (trimEndMatches xmlEnd (trimStartMatches slideStart s.data)) = none →
      extract_num s = 0)
    ∧ (archiveOk archive →
        extract_pptx_text archive = Except.error "No text found in presentation slides."
        ∨ ∃ t, extract_pptx_text archive = Except.ok t) := by
  constructor
  · intro h
    rw [extract_num, h]
    rfl
  · intro hok
    rw [extract_pptx_markers hok]
    by_cases hm : markerNames archive = []
    · left; rw [if_pos hm]
    · right; exact ⟨_, by rw [if_neg hm]⟩

/-- Witness for C6 at a malformed slide name: `slideFOO` has no parseable
ordinal, falls back to 0, and extraction of the containing archive still
succeeds. -/
theorem claim_C6_ordinal_fallback_witness :
    (parseU32 (trimEndMatches xmlEnd
        (trimStartMatches slideStart "ppt/slides/slideFOO.xml".data)) = none)
    ∧ extract_num "ppt/slides/slideFOO.xml" = 0
    ∧ archiveOk wArchMalformed
    ∧ (extract_pptx_text wArchMalformed = Except.error "No text found in presentation slides."
       ∨ ∃ t, extract_pptx_text wArchMalformed = Except.ok t) :=
  ⟨by decide,
   (claim_C6_ordinal_fallback wArchMalformed "ppt/slides/slideFOO.xml").1 (by decide),
   by decide,
   (claim_C6_ordinal_fallback wArchMalformed "ppt/slides/slideFOO.xml").2 (by decide)⟩

theorem foldlM_slideStep_congr {f g : String → String → Except String String}
    (h : ∀ b a, f b a = g b a) :
    ∀ (l : List String) (init : String), l.foldlM f init = l.foldlM g init := by
  intro l
  induction l with
  | nil => intro init; rfl
  | cons a t ih =>
    intro init
    rw [List.foldlM_cons, List.foldlM_cons, h]
    cases g init a with
    | error e => rfl
    | ok b =>
      show t.foldlM f b = t.foldlM g b
      exact ih b

theorem slide_files_congr_name {A B : List ZipMember} {m₁ m₂ : ZipMember}
    (h : m₁.name = m₂.name) :
    slide_files (A ++ m₁ :: B) = slide_files (A ++ m₂ :: B) := by
  simp only [slide_files, List.filter_append, List.filter_cons, List.map_append, h]
  split <;> simp [h]

theorem byName_mid (A B : List ZipMember) (m₁ m₂ : ZipMember)
    (h : m₁.name = m₂.name) (nm : String) :
    byName (A ++ m₁ :: B) nm = byName (A ++ m₂ :: B) nm
    ∨ (byName (A ++ m₁ :: B) nm = some m₁ ∧ byName (A ++ m₂ :: B) nm = some m₂) := by
  unfold byName
  rw [List.find?_append, List.find?_append]
  cases hfa : A.find? (fun m => m.name = nm) with
  | some a => left; rfl
  | none =>
    simp only [Option.none_or]
    by_cases hm : m₁.name = nm
    · right
      constructor
      · simp [List.find?_cons, hm]
      · simp [List.find?_cons, show m₂.name = nm from h ▸ hm]
    · left
      simp [List.find?_cons, hm, show m₂.name ≠ nm from h ▸ hm]

theorem slideStep_err_cut (A B : List ZipMember) (n : String)
    (pre post : List XmlEvent) (text nm : String) :
    slideStep (A ++ ⟨n, Except.ok (pre ++ XmlEvent.err :: post)⟩ :: B) text nm
      = slideStep (A ++ ⟨n, Except.ok pre⟩ :: B) text nm := by
  rcases byName_mid A B ⟨n, Except.ok (pre ++ XmlEvent.err :: post)⟩ ⟨n, Except.ok pre⟩
      rfl nm with heq | ⟨h₁, h₂⟩
  · unfold slideStep
    rw [heq]
  · unfold slideStep
    rw [h₁, h₂]
    simp only [processEvents_err]

/-- C3: a reader error inside one slide's XML stops only that slide's scan —
the text accumulated before the error is kept (first conjunct), and the
extraction of the whole archive is unchanged by truncating the slide at the
error, so the remaining slides are processed exactly as before and the call
never fails because of the malformed slide (second conjunct). -/
theorem claim_C3_malformed_slide_isolated (A B : List ZipMember) (n : String)
    (pre post : List XmlEvent) (acc : String) :
    processEvents (pre ++ XmlEvent.err :: post) acc = processEvents pre acc
    ∧ extract_pptx_text (A ++ ⟨n, Except.ok (pre ++ XmlEvent.err :: post)⟩ :: B)
      = extract_pptx_text (A ++ ⟨n, Except.ok pre⟩ :: B) := by
  refine ⟨processEvents_err pre post acc, ?_⟩
  unfold extract_pptx_text
  have hsf : sorted_slide_files (A ++ ⟨n, Except.ok (pre ++ XmlEvent.err :: post)⟩ :: B)
      = sorted_slide_files (A ++ ⟨n, Except.ok pre⟩ :: B) := by
    unfold sorted_slide_files
    exact congrArg (List.insertionSort fun a b => extract_num a ≤ extract_num b)
      (slide_files_congr_name rfl)
  rw [hsf, foldlM_slideStep_congr (fun text nm => slideStep_err_cut A B n pre post text nm)]

/-- C9: the sort is stable — for every ordinal value `k`, the matched
members with that ordinal appear in the sorted order (and among the emitted
marker names) exactly in their archive enumeration order, and the whole
emission is pairwise ascending in ordinal, so the ordinal-0 group precedes
every slide with a positive ordinal; under readable contents the output is
the marker blocks in exactly that order. -/
theorem claim_C9_stable_sort (archive : List ZipMember) (k : Nat) :
    (sorted_slide_files archive).filter (fun n => decide (extract_num n = k))
      = (slide_files archive).filter (fun n => decide (extract_num n = k))
    ∧ (markerNames archive).filter (fun n => decide (extract_num n = k))
      = ((slide_files archive).filter (slideKept archive)).filter
          (fun n => decide (extract_num n = k))
    ∧ (markerNames archive).Pairwise (fun a b => extract_num a ≤ extract_num b)
    ∧ (archiveOk archive → markerNames archive ≠ [] →
        extract_pptx_text archive =
          Except.ok (concatStrs ((markerNames archive).map (markerBlock archive)))) := by
  have hkey : ∀ x : String, decide (extract_num x = k) = true → extract_num x = k :=
    fun x hx => of_decide_eq_true hx
  refine ⟨filter_insertionSort_of_key hkey _, ?_, ?_, ?_⟩
  · rw [markerNames, sorted_slide_files, List.filter_filter, List.filter_filter]
    exact filter_insertionSort_of_key
      (fun x hx => of_decide_eq_true ((Bool.and_eq_true _ _).mp hx).1) _
  · exact (sorted_slide_files_pairwise archive).filter _
  · intro hok hne
    rw [extract_pptx_markers hok, if_neg hne]

/-- Witness for C9: two malformed names (both ordinal 0) keep their archive
order B-then-A and precede slide1. -/
theorem claim_C9_stable_sort_witness :
    (sorted_slide_files wArchEqual).filter (fun n => decide (extract_num n = 0))
      = (slide_files wArchEqual).filter (fun n => decide (extract_num n = 0))
    ∧ (markerNames wArchEqual).Pairwise (fun a b => extract_num a ≤ extract_num b)
    ∧ extract_pptx_text wArchEqual =
        Except.ok (concatStrs ((markerNames wArchEqual).map (markerBlock wArchEqual)))
    ∧ markerNames wArchEqual =
        ["ppt/slides/slideB.xml", "ppt/slides/slideA.xml", "ppt/slides/slide1.xml"] :=
  ⟨(claim_C9_stable_sort wArchEqual 0).1,
   (claim_C9_stable_sort wArchEqual 0).2.2.1,
   (claim_C9_stable_sort wArchEqual 0).2.2.2 (by decide) (by decide),
   by decide⟩

/-! ### Claim theorems: DOCX extractor -/

theorem runStep_foldl (rcs : List RunChild) (t : String) :
    rcs.foldl runStep t = t ++ runTextSpec rcs := by
  induction rcs generalizing t with
  | nil => simp [runTextSpec, concatStrs]
  | cons rc rest ih =>
    cases rc with
    | text s => simp [runStep, runTextSpec, concatStrs, ih, String.append_assoc]
    | deleteText s => simp [runStep, runTextSpec, concatStrs, ih]
    | other => simp [runStep, runTextSpec, concatStrs, ih]

theorem parStep_foldl (pcs : List ParagraphChild) (t : String) :
    pcs.foldl parStep t = t ++ paragraphTextSpec pcs := by
  induction pcs generalizing t with
  | nil => simp [paragraphTextSpec, concatStrs]
  | cons pc rest ih =>
    cases pc with
    | run rcs =>
      simp [parStep, paragraphTextSpec, concatStrs, ih, runStep_foldl, String.append_assoc]
    | hyperlink rcs => simp [parStep, paragraphTextSpec, concatStrs, ih]
    | other => simp [parStep, paragraphTextSpec, concatStrs, ih]

theorem docStep_foldl (children : List DocumentChild) (t : String) :
    children.foldl docStep t = t ++ docxSpecOutput children := by
  induction children generalizing t with
  | nil => simp [docxSpecOutput, concatStrs]
  | cons c rest ih =>
    cases c with
    | paragraph pcs =>
      simp [docStep, docxSpecOutput, concatStrs, ih, parStep_foldl, String.append_assoc]
    | table content => simp [docStep, docxSpecOutput, concatStrs, ih]
    | other => simp [docStep, docxSpecOutput, concatStrs, ih]

/-- C7: the DOCX output is, for every parsed document, the concatenation in
document order of one line per paragraph — the paragraph's run text-node
contents concatenated with no separator, then exactly one newline, blank
paragraphs included — and on the paragraphs Hello, empty, World it is
exactly "Hello\n\nWorld\n". -/
theorem claim_C7_docx_paragraph_lines :
    (∀ children : List DocumentChild, extract_docx_text children = docxSpecOutput children)
    ∧ extract_docx_text docxExample = "Hello\n\nWorld\n" := by
  constructor
  · intro children
    rw [extract_docx_text, docStep_foldl]
    exact String.empty_append _
  · decide

/-- C10: the DOCX traversal only reaches text through
document child → paragraph → run → text node: a table document child, a
hyperlink paragraph child, or a non-text run child (deleted-revision text)
contributes nothing to the output wherever it is inserted. -/
theorem claim_C10_docx_skips_non_run_text :
    (∀ (A B : List DocumentChild) (t : List (List ParagraphChild)),
      extract_docx_text (A ++ DocumentChild.table t :: B) = extract_docx_text (A ++ B))
    ∧ (∀ (A B : List DocumentChild) (P Q : List ParagraphChild) (rs : List RunChild),
      extract_docx_text (A ++ DocumentChild.paragraph (P ++ ParagraphChild.hyperlink rs :: Q) :: B)
        = extract_docx_text (A ++ DocumentChild.paragraph (P ++ Q) :: B))
    ∧ (∀ (A B : List DocumentChild) (P Q : List ParagraphChild) (R S : List RunChild)
        (s : String),
      extract_docx_text (A ++ DocumentChild.paragraph
          (P ++ ParagraphChild.run (R ++ RunChild.deleteText s :: S) :: Q) :: B)
        = extract_docx_text (A ++ DocumentChild.paragraph
            (P ++ ParagraphChild.run (R ++ S) :: Q) :: B)) := by
  refine ⟨?_, ?_, ?_⟩
  · intro A B t
    simp [extract_docx_text, List.foldl_append, docStep]
  · intro A B P Q rs
    simp [extract_docx_text, List.foldl_append, docStep, parStep]
  · intro A B P Q R S s
    simp [extract_docx_text, List.foldl_append, docStep, parStep, runStep]

/-! ### Claim theorems: facade -/

/-- C8: for a path whose lowercased extension is txt or md, a successful
UTF-8 read is returned verbatim (identity), and a failed read (I/O error or
invalid encoding) is returned as the wrapped read failure. -/
theorem claim_C8_plaintext_verbatim (path e content err : String)
    (d p q : Except String String)
    (hext : rustExtension path = some e)
    (hkind : strToLower e = "txt" ∨ strToLower e = "md") :
    extract_document_text path (Except.ok content) d p q = Except.ok content
    ∧ extract_document_text path (Except.error err) d p q
      = Except.error ("Failed to read file: " ++ err) := by
  rcases hkind with h | h <;>
    exact ⟨by simp [extract_document_text, hext, h],
           by simp [extract_document_text, hext, h]⟩

/-- Witness for C8 at `notes.txt`. -/
theorem claim_C8_plaintext_verbatim_witness :
    rustExtension "notes.txt" = some "txt"
    ∧ (strToLower "txt" = "txt" ∨ strToLower "txt" = "md")
    ∧ (extract_document_text "notes.txt" (Except.ok "hello world")
         (Except.ok "d") (Except.ok "p") (Except.ok "q") = Except.ok "hello world"
      ∧ extract_document_text "notes.txt" (Except.error "bad utf8")
         (Except.ok "d") (Except.ok "p") (Except.ok "q")
         = Except.error ("Failed to read file: " ++ "bad utf8")) :=
  ⟨by decide, by decide,
   claim_C8_plaintext_verbatim "notes.txt" "txt" "hello world" "bad utf8"
     (Except.ok "d") (Except.ok "p") (Except.ok "q") (by decide) (by decide)⟩

/-- C4, counterexample to the claim as stated: a path with no extension at
all does not produce a message of the form `Unsupported file type: <ext>`
(in either capitalization); it produces the distinct message
`Could not determine file type`, which names no extension. -/
theorem claim_C4_counterexample :
    extract_document_text "file" (Except.ok "x") (Except.ok "x") (Except.ok "x") (Except.ok "x")
      = Except.error "Could not determine file type"
    ∧ (¬ ∃ ext : String, "Could not determine file type" = "Unsupported file type: " ++ ext)
    ∧ (¬ ∃ ext : String, "Could not determine file type" = "unsupported file type: " ++ ext) := by
  refine ⟨by decide, ?_, ?_⟩
  · rintro ⟨ext, hext⟩
    have hd : "Could not determine file type".data
        = "Unsupported file type: ".data ++ ext.data := congrArg String.data hext
    have ht := congrArg (List.take 23) hd
    rw [List.take_left' (by decide)] at ht
    exact absurd ht (by decide)
  · rintro ⟨ext, hext⟩
    have hd : "Could not determine file type".data
        = "unsupported file type: ".data ++ ext.data := congrArg String.data hext
    have ht := congrArg (List.take 23) hd
    rw [List.take_left' (by decide)] at ht
    exact absurd ht (by decide)

/-- C4, amended: a path whose lowercased extension is not one of the six
recognized ones fails with `Unsupported file type: <lowercased ext>` naming
the lowercased extension, while a path with no extension at all fails with
the extension-free message `Could not determine file type`. -/
theorem claim_C4_unknown_extension (path e : String)
    (r d p q : Except String String) :
    (rustExtension path = some e →
      strToLower e ∉ (["txt", "md", "docx", "pdf", "pptx", "ppt"] : List String) →
      extract_document_text path r d p q
        = Except.error ("Unsupported file type: " ++ strToLower e))
    ∧ (rustExtension path = none →
      extract_document_text path r d p q = Except.error "Could not determine file type") := by
  constructor
  · intro hext hnot
    simp only [List.mem_cons, List.mem_singleton, not_or] at hnot
    obtain ⟨h1, h2, h3, h4, h5, h6⟩ := hnot
    simp [extract_document_text, hext, h1, h2, h3, h4, h5, h6]
  · intro hext
    simp [extract_document_text, hext]

/-- Witness for the amended C4 at `a.xyz` (unknown extension) and `file`
(no extension). -/
theorem claim_C4_unknown_extension_witness :
    (rustExtension "a.xyz" = some "xyz"
     ∧ strToLower "xyz" ∉ (["txt", "md", "docx", "pdf", "pptx", "ppt"] : List String)
     ∧ extract_document_text "a.xyz" (Except.ok "x") (Except.ok "x") (Except.ok "x")
         (Except.ok "x") = Except.error ("Unsupported file type: " ++ strToLower "xyz"))
    ∧ (rustExtension "file" = none
     ∧ extract_document_text "file" (Except.ok "x") (Except.ok "x") (Except.ok "x")
         (Except.ok "x") = Except.error "Could not determine file type") :=
  ⟨⟨by decide, by decide,
    (claim_C4_unknown_extension "a.xyz" "xyz" (Except.ok "x") (Except.ok "x") (Except.ok "x")
      (Except.ok "x")).1 (by decide) (by decide)⟩,
   ⟨by decide,
    (claim_C4_unknown_extension "file" "xyz" (Except.ok "x") (Except.ok "x") (Except.ok "x")
      (Except.ok "x")).2 (by decide)⟩⟩

end VocabExtract
